import Mathlib

/-
Verification of the emotion-tagged speech pipeline of the bubble repository.

The definitions below are a shallow embedding of the Python sources:
  * src/f5tts.py    : parse_tagged_text, generate_silence, get_emotion_audio_path,
                      generate_emotion_audio (segment loop, model load/unload lifecycle)
  * src/main.py     : merge_audio_with_melody (pydub mixing logic)
  * src/video_clipper.py : extract_random_segment (trim planning),
                      convert_to_shorts_format (crop/scale arithmetic)

Strings are modelled as `List Char`.  External effects (the F5-TTS inference
call, Python's float() builtin, os.path.exists) are parameters of an
environment record, since they are not code of this repository.  Audio
buffers are lists of rational sample values; pydub AudioSegments are lists
with one entry per millisecond, matching pydub's millisecond-granular len,
slicing, repetition and overlay semantics.
-/

/-- ASCII word character, modelling the regex class backslash-w as it applies
to the emotion labels used by the repository (letters, digits, underscore). -/
def isWordChar (c : Char) : Bool := c.isAlphanum || c = '_'

/-- Python str whitespace (ASCII part), as stripped by str.strip(). -/
def isSpaceChar (c : Char) : Bool :=
  c = ' ' || c = '\t' || c = '\n' || c = '\r' || c = '\x0b' || c = '\x0c'

/-- Python str.strip(): remove leading and trailing whitespace. -/
def trimChars (s : List Char) : List Char :=
  ((s.dropWhile isSpaceChar).reverse.dropWhile isSpaceChar).reverse

/-- Remove every whitespace character (used to compare texts modulo whitespace). -/
def removeWs (s : List Char) : List Char := s.filter (fun c => !isSpaceChar c)

/-- The closing tag for a label: the character sequence of a slash-closed label. -/
def closeTag (label : List Char) : List Char := '<' :: '/' :: (label ++ ['>'])

/-- Lazy-content search of the regex: find the first occurrence of the closing
tag `cl` in the text, returning the content before it and the text after it. -/
def findClose (cl : List Char) : List Char → Option (List Char × List Char)
  | [] => none
  | c :: cs =>
    if cl.isPrefixOf (c :: cs) then some ([], (c :: cs).drop cl.length)
    else
      match findClose cl cs with
      | some (content, rest) => some (c :: content, rest)
      | none => none

/-- Attempt to match the regex pattern of parse_tagged_text at the head of the
text: an opening angle bracket, a nonempty maximal run of word characters, a
closing angle bracket, then the lazily matched content up to the first
occurrence of the back-referenced closing tag.  Returns (label, content,
remaining text) on success. -/
def matchAt (s : List Char) : Option (List Char × List Char × List Char) :=
  match s with
  | [] => none
  | c :: rest =>
    if c = '<' then
      let label := rest.takeWhile isWordChar
      if label = [] then none
      else
        match rest.dropWhile isWordChar with
        | [] => none
        | c2 :: afterOpen =>
          if c2 = '>' then
            match findClose (closeTag label) afterOpen with
            | some (content, after) => some (label, content, after)
            | none => none
          else none
    else none

/-- The neutral label used for untagged spans. -/
def neutralChars : List Char := "neutral".data

/-- The silence label recognised by the synthesis loop. -/
def silenceChars : List Char := "silence".data

/-- Flush the untagged text accumulated between matches: stripped, and dropped
entirely when blank, exactly as parse_tagged_text does for before/after text. -/
def flushNeutral (pending : List Char) : List (List Char × List Char) :=
  let t := trimChars pending
  if t = [] then [] else [(neutralChars, t)]

/-- Fuel-indexed scan of parse_tagged_text: walk the text left to right; at a
match, flush pending untagged text as neutral, emit (label, stripped content),
and continue after the match; otherwise shift one character into the pending
untagged span.  The fuel strictly exceeds the text length at every call, so
the zero-fuel default is never reached. -/
def parseLoopF : Nat → List Char → List Char → List (List Char × List Char)
  | 0, pending, _ => flushNeutral pending
  | fuel + 1, pending, s =>
    match matchAt s with
    | some (label, content, rest) =>
      flushNeutral pending ++ (label, trimChars content) :: parseLoopF fuel [] rest
    | none =>
      match s with
      | [] => flushNeutral pending
      | c :: cs => parseLoopF fuel (pending ++ [c]) cs

/-- The scan with its canonical fuel supply. -/
def parseRun (pending s : List Char) : List (List Char × List Char) :=
  parseLoopF (s.length + 1) pending s

/-- Embedding of parse_tagged_text from src/f5tts.py: split emotion-tagged
text into an ordered list of (emotion, content) segments. -/
def parse_tagged_text (text : List Char) : List (List Char × List Char) :=
  parseRun [] text

/-- Concatenation of the contents of a segment list, in document order. -/
def joinedContents (segs : List (List Char × List Char)) : List Char :=
  (segs.map Prod.snd).flatten

/-- A component of a well-formed tagged input: either an untagged span or a
matched tag pair. -/
inductive TagItem where
  | raw (s : List Char)
  | pair (label : List Char) (body : List Char)

/-- Render one component back to its concrete text. -/
def renderItem : TagItem → List Char
  | .raw s => s
  | .pair label body => '<' :: (label ++ '>' :: (body ++ closeTag label))

/-- Render a well-formed tagged input to its concrete text. -/
def renderItems (items : List TagItem) : List Char :=
  (items.map renderItem).flatten

/-- Well-formedness of one component: untagged spans contain no opening angle
bracket, tag pairs have a nonempty word-character label and a body free of
opening angle brackets. -/
def wfItem : TagItem → Prop
  | .raw s => '<' ∉ s
  | .pair label body => label ≠ [] ∧ (∀ c ∈ label, isWordChar c = true) ∧ '<' ∉ body

instance : DecidablePred wfItem := fun it =>
  match it with
  | .raw s => inferInstanceAs (Decidable ('<' ∉ s))
  | .pair label body =>
    inferInstanceAs (Decidable (label ≠ [] ∧ (∀ c ∈ label, isWordChar c = true) ∧ '<' ∉ body))

/-- Well-formedness of a whole tagged input. -/
def wfItems (items : List TagItem) : Prop := ∀ it ∈ items, wfItem it

instance (items : List TagItem) : Decidable (wfItems items) :=
  inferInstanceAs (Decidable (∀ it ∈ items, wfItem it))

/-- The original text with the tag markup removed: untagged spans and tag
bodies, in document order. -/
def stripMarkup : List TagItem → List Char
  | [] => []
  | .raw s :: rest => s ++ stripMarkup rest
  | .pair _ body :: rest => body ++ stripMarkup rest

/-- Python int() truncation toward zero of a rational value. -/
def pyInt (q : ℚ) : ℤ := Int.tdiv q.num (q.den : ℤ)

/-- Embedding of generate_silence from src/f5tts.py: np.zeros(int(duration *
sample_rate)).  np.zeros raises ValueError on a negative count, modelled as
none. -/
def generate_silence (durationSeconds : ℚ) (sampleRate : ℕ) : Option (List ℚ) :=
  let n := pyInt (durationSeconds * (sampleRate : ℚ))
  if n < 0 then none else some (List.replicate n.toNat 0)

/-- Result of one external speech-synthesis call: the waveform and the sample
rate it reports. -/
structure TtsOut where
  wave : List ℚ
  rate : ℕ
deriving DecidableEq

/-- External world of the synthesis pipeline: Python's float() builtin on
silence contents, os.path.exists, the script directory, and the F5-TTS
inference call (which may raise).  These are not code of this repository, so
they are parameters of the embedding. -/
structure F5Env where
  floatOfString : List Char → Option ℚ
  fsExists : List Char → Bool
  scriptDir : List Char
  infer : List Char → List Char → Except Unit TtsOut

/-- The asset path from SCRIPT_DIR, "data", "emotions", label + ".mp3". -/
def emotionAssetPath (dir label : List Char) : List Char :=
  dir ++ "/data/emotions/".data ++ label ++ ".mp3".data

/-- Embedding of get_emotion_audio_path from src/f5tts.py: the emotion's asset
path when it exists, else the neutral fallback asset path. -/
def get_emotion_audio_path (env : F5Env) (emotion : List Char) : List Char :=
  let p := emotionAssetPath env.scriptDir emotion
  if env.fsExists p then p else emotionAssetPath env.scriptDir neutralChars

/-- Accumulated state of the segment loop of generate_emotion_audio: the audio
buffers collected so far and the current sample rate. -/
structure RunState where
  buffers : List (List ℚ)
  rate : ℕ
deriving DecidableEq

/-- The state at loop entry: no buffers, default sample rate 24000. -/
def initState : RunState := { buffers := [], rate := 24000 }

/-- The segment loop of generate_emotion_audio: silence segments parse their
content with float() and are skipped (diagnostic printed, loop continues) when
that raises ValueError, as is a negative zero-count from np.zeros; valid
silence appends zeros at the current rate; speech segments call the inference
model with the resolved reference audio, append the waveform and adopt the
reported rate.  An inference exception propagates. -/
def processSegs (env : F5Env) : List (List Char × List Char) → RunState → Except Unit RunState
  | [], st => .ok st
  | sg :: rest, st =>
    if sg.1 = silenceChars then
      match env.floatOfString sg.2 with
      | none => processSegs env rest st
      | some d =>
        match generate_silence d st.rate with
        | none => processSegs env rest st
        | some buf => processSegs env rest { buffers := st.buffers ++ [buf], rate := st.rate }
    else
      match env.infer (get_emotion_audio_path env sg.1) sg.2 with
      | .error e => .error e
      | .ok out => processSegs env rest { buffers := st.buffers ++ [out.wave], rate := out.rate }

/-- Resource events of one generate_emotion_audio job. -/
inductive TtsEv where
  | load
  | seg (sg : List Char × List Char)
  | unload
deriving DecidableEq

/-- The segments that enter processing, as events, up to and including the one
whose inference call raises. -/
def segEvents (env : F5Env) : List (List Char × List Char) → List TtsEv
  | [] => []
  | sg :: rest =>
    if sg.1 = silenceChars then .seg sg :: segEvents env rest
    else
      match env.infer (get_emotion_audio_path env sg.1) sg.2 with
      | .error _ => [.seg sg]
      | .ok _ => .seg sg :: segEvents env rest

/-- Failure modes of generate_emotion_audio: the explicit ValueError when
parsing yields no segments, the explicit ValueError when no audio segment was
generated, and a propagated inference exception. -/
inductive GenErr where
  | noSegments
  | noAudio
  | ttsFailure
deriving DecidableEq

/-- Embedding of generate_emotion_audio from src/f5tts.py: parse the tagged
text; fail explicitly when there are no segments; otherwise load the model,
process every segment, and unload the model in a finally block on every exit
path of the processing scope.  Returns the resource-event trace alongside the
result (concatenated audio and final sample rate). -/
def generate_emotion_audio (env : F5Env) (text : List Char) :
    List TtsEv × Except GenErr (List ℚ × ℕ) :=
  let segments := parse_tagged_text text
  if segments = [] then ([], Except.error GenErr.noSegments)
  else
    let trace := TtsEv.load :: (segEvents env segments ++ [TtsEv.unload])
    match processSegs env segments initState with
    | .error _ => (trace, Except.error GenErr.ttsFailure)
    | .ok st =>
      if st.buffers = [] then (trace, Except.error GenErr.noAudio)
      else (trace, Except.ok (st.buffers.flatten, st.rate))

/-- Whether the global model handle is loaded after a trace of resource
events: load sets it, unload clears it (del plus reset to None). -/
def modelLoadedAfter (trace : List TtsEv) : Bool :=
  trace.foldl (fun b e => match e with | .load => true | .unload => false | .seg _ => b) false

/-- Amplitude factor of the fixed minus-twenty-decibel gain applied to the
background melody before overlay. -/
def gainNeg20 (x : ℚ) : ℚ := x / 10

/-- pydub overlay: add the other sound onto this one at position zero; the
output keeps the duration of the sound overlaid onto. -/
def pydubOverlay (a b : List ℚ) : List ℚ :=
  List.zipWith (· + ·) a b ++ a.drop b.length

/-- Embedding of merge_audio_with_melody from src/main.py over
millisecond-granular pydub segments: a melody shorter than the podcast is
repeated podcast/melody + 1 times then truncated to the podcast duration; a
longer one is truncated only; the result is attenuated by the fixed
minus-twenty-decibel gain and overlaid additively onto the podcast.  A zero
length melody against a nonempty podcast raises ZeroDivisionError, modelled
as none. -/
def merge_audio_with_melody (podcast melody : List ℚ) : Option (List ℚ) :=
  let pd := podcast.length
  let md := melody.length
  if md < pd then
    if md = 0 then none
    else
      let extended := ((List.replicate (pd / md + 1) melody).flatten).take pd
      some (pydubOverlay podcast (extended.map gainNeg20))
  else
    some (pydubOverlay podcast ((melody.take pd).map gainNeg20))

/-- Embedding of the trim planning of extract_random_segment from
src/video_clipper.py: clamp the requested duration to the probed source
duration, then draw the start offset with random.uniform on the interval from
zero to source duration minus segment duration.  Returns (start, duration) as
passed to the encoder. -/
def extract_random_segment (videoDuration targetDuration : ℚ)
    (uniform : ℚ → ℚ → ℚ) : ℚ × ℚ :=
  let segmentDuration := min targetDuration videoDuration
  let maxStartTime := max 0 (videoDuration - segmentDuration)
  (uniform 0 maxStartTime, segmentDuration)

/-- YouTube Shorts target width from src/video_clipper.py. -/
def SHORTS_WIDTH : ℕ := 1080

/-- YouTube Shorts target height from src/video_clipper.py. -/
def SHORTS_HEIGHT : ℕ := 1920

/-- Embedding of the crop-and-scale computation of convert_to_shorts_format
from src/video_clipper.py: against the target aspect ratio, crop width
centred when the source is wider, else crop height centred; the filter then
scales to the fixed target dimensions.  Returns ((crop width, crop height,
crop x, crop y), (scale width, scale height)); a zero source height raises
ZeroDivisionError, modelled as none. -/
def convert_to_shorts_format (w h : ℕ) : Option ((ℤ × ℤ × ℤ × ℤ) × (ℕ × ℕ)) :=
  if h = 0 then none
  else
    let targetAspect : ℚ := (SHORTS_WIDTH : ℚ) / (SHORTS_HEIGHT : ℚ)
    let currentAspect : ℚ := (w : ℚ) / (h : ℚ)
    if targetAspect < currentAspect then
      let cropW := pyInt ((h : ℚ) * targetAspect)
      some ((cropW, (h : ℤ), Int.fdiv ((w : ℤ) - cropW) 2, 0), (SHORTS_WIDTH, SHORTS_HEIGHT))
    else
      let cropH := pyInt ((w : ℚ) / targetAspect)
      some (((w : ℤ), cropH, 0, Int.fdiv ((h : ℤ) - cropH) 2), (SHORTS_WIDTH, SHORTS_HEIGHT))

/-- Concrete environment used to evaluate the pipeline theorems on witnesses:
float() succeeds exactly on the literal "2", no asset file exists, and the
inference model returns a one-sample waveform at rate 32000. -/
def envW : F5Env :=
  { floatOfString := fun s => if s = ['2'] then some 2 else none
  , fsExists := fun _ => false
  , scriptDir := []
  , infer := fun _ _ => Except.ok { wave := [1], rate := 32000 } }

/-- Concrete bound-respecting sampler used by the extraction witness: always
return the lower bound. -/
def uniformW : ℚ → ℚ → ℚ := fun lo _ => lo

/-- Concrete well-formed tagged input used by the round-trip witness. -/
def itemsW : List TagItem :=
  [TagItem.raw " hi ".data, TagItem.pair "scared".data "boo".data]

/-- Concrete tagged text used by the lifecycle witness. -/
def textW : List Char := "<neutral>hi</neutral>".data

/-- Concrete podcast track (three milliseconds) used by the mixing witness. -/
def pW : List ℚ := [1, 2, 3]

/-- Concrete melody track (one millisecond) used by the mixing witness. -/
def mW : List ℚ := [5]

lemma isPrefixOf_append_self (a b : List Char) : a.isPrefixOf (a ++ b) = true := by
  induction a with
  | nil => simp [List.isPrefixOf]
  | cons x xs ih => simp [List.isPrefixOf, ih]

lemma exists_of_isPrefixOf {a b : List Char} (h : a.isPrefixOf b = true) :
    ∃ u, b = a ++ u := by
  induction a generalizing b with
  | nil => exact ⟨b, rfl⟩
  | cons x xs ih =>
    cases b with
    | nil => simp [List.isPrefixOf] at h
    | cons y ys =>
      simp only [List.isPrefixOf, Bool.and_eq_true, beq_iff_eq] at h
      obtain ⟨rfl, h2⟩ := h
      obtain ⟨u, rfl⟩ := ih h2
      exact ⟨u, rfl⟩

lemma isPrefixOf_cons_ne {x y : Char} (hxy : x ≠ y) (xs ys : List Char) :
    (x :: xs).isPrefixOf (y :: ys) = false := by
  simp [List.isPrefixOf, hxy]

lemma drop_len_append (a b : List Char) : (a ++ b).drop a.length = b := by
  simp

lemma findClose_self (l rest : List Char) :
    findClose (closeTag l) (closeTag l ++ rest) = some ([], rest) := by
  have h1 : closeTag l ++ rest = '<' :: (('/' :: (l ++ ['>'])) ++ rest) := by
    simp [closeTag]
  rw [h1, findClose, ← h1, isPrefixOf_append_self, drop_len_append]
  rfl

lemma findClose_append (l b rest : List Char) (hb : '<' ∉ b) :
    findClose (closeTag l) (b ++ (closeTag l ++ rest)) = some (b, rest) := by
  induction b with
  | nil => exact findClose_self l rest
  | cons c cs ih =>
    have hc : c ≠ '<' := fun hcc => hb (hcc ▸ List.mem_cons_self c cs)
    have hcs : '<' ∉ cs := fun hm => hb (List.mem_cons_of_mem c hm)
    rw [List.cons_append, findClose]
    have hpre : (closeTag l).isPrefixOf (c :: (cs ++ (closeTag l ++ rest))) = false := by
      simpa [closeTag] using isPrefixOf_cons_ne (fun hx => hc hx.symm) _ _
    rw [hpre, ih hcs]
    rfl

lemma takeWhile_word_label (l t : List Char) (c : Char)
    (hl : ∀ x ∈ l, isWordChar x = true) (hc : isWordChar c = false) :
    (l ++ c :: t).takeWhile isWordChar = l := by
  induction l with
  | nil => simp [List.takeWhile_cons, hc]
  | cons x xs ih =>
    have hx : isWordChar x = true := hl x (List.mem_cons_self x xs)
    simp only [List.cons_append, List.takeWhile_cons, hx]
    simp [ih fun y hy => hl y (List.mem_cons_of_mem x hy)]

lemma dropWhile_word_label (l t : List Char) (c : Char)
    (hl : ∀ x ∈ l, isWordChar x = true) (hc : isWordChar c = false) :
    (l ++ c :: t).dropWhile isWordChar = c :: t := by
  induction l with
  | nil => simp [List.dropWhile_cons, hc]
  | cons x xs ih =>
    have hx : isWordChar x = true := hl x (List.mem_cons_self x xs)
    simp only [List.cons_append, List.dropWhile_cons, hx]
    simp [ih fun y hy => hl y (List.mem_cons_of_mem x hy)]

lemma matchAt_open (l b rest : List Char) (hl : l ≠ [])
    (hw : ∀ c ∈ l, isWordChar c = true) (hb : '<' ∉ b) :
    matchAt ('<' :: (l ++ '>' :: (b ++ (closeTag l ++ rest)))) = some (l, b, rest) := by
  have hgt : isWordChar '>' = false := by decide
  rw [matchAt]
  simp only [if_pos rfl]
  rw [takeWhile_word_label l (b ++ (closeTag l ++ rest)) '>' hw hgt,
      dropWhile_word_label l (b ++ (closeTag l ++ rest)) '>' hw hgt]
  simp only [if_neg hl, if_pos rfl]
  rw [findClose_append l b rest hb]
  simp

lemma matchAt_cons_ne {c : Char} (h : c ≠ '<') (cs : List Char) :
    matchAt (c :: cs) = none := by
  rw [matchAt]
  simp [h]

lemma findClose_some (cl : List Char) :
    ∀ t content r, findClose cl t = some (content, r) → t = content ++ (cl ++ r) := by
  intro t
  induction t with
  | nil => intro content r h; simp [findClose] at h
  | cons c cs ih =>
    intro content r h
    rw [findClose] at h
    cases hp : cl.isPrefixOf (c :: cs) with
    | true =>
      rw [hp] at h
      obtain ⟨u, hu⟩ := exists_of_isPrefixOf hp
      rw [hu, drop_len_append] at h
      simp only [if_true] at h
      obtain ⟨rfl, rfl⟩ := Prod.mk.inj (Option.some.inj h)
      simpa using hu
    | false =>
      rw [hp] at h
      simp only [Bool.false_eq_true, if_false] at h
      cases hf : findClose cl cs with
      | none => simp [hf] at h
      | some pr =>
        obtain ⟨content2, rest2⟩ := pr
        simp only [hf] at h
        obtain ⟨rfl, rfl⟩ := Prod.mk.inj (Option.some.inj h)
        simpa using ih content2 rest2 hf

lemma matchAt_some_length {s l c r : List Char} (h : matchAt s = some (l, c, r)) :
    r.length < s.length := by
  cases s with
  | nil => simp [matchAt] at h
  | cons ch cs =>
    simp only [matchAt] at h
    split at h
    · split at h
      · simp at h
      · split at h
        · simp at h
        · rename_i hlab hdrop
          split at h
          · split at h
            · rename_i content after hfc
              obtain ⟨rfl, rfl, rfl⟩ := Prod.mk.inj (Option.some.inj h) |>.imp id Prod.mk.inj
              have e0 := congrArg List.length (List.takeWhile_append_dropWhile (p := isWordChar) (l := cs))
              rw [hdrop] at e0
              have e1 := congrArg List.length (findClose_some _ _ _ _ hfc)
              simp only [List.length_append, List.length_cons] at e0 e1
              simp only [List.length_cons]
              omega
            · simp at h
          · simp at h
    · simp at h

lemma parseLoopF_fuel : ∀ f1 f2 pending s, s.length < f1 → s.length < f2 →
    parseLoopF f1 pending s = parseLoopF f2 pending s := by
  intro f1
  induction f1 with
  | zero => intro f2 pending s h1 h2; exact absurd h1 (Nat.not_lt_zero _)
  | succ f ih =>
    intro f2 pending s h1 h2
    cases f2 with
    | zero => exact absurd h2 (Nat.not_lt_zero _)
    | succ f2 =>
      simp only [parseLoopF]
      cases hm : matchAt s with
      | some v =>
        obtain ⟨l, c, r⟩ := v
        simp only [hm]
        have hr : r.length < s.length := matchAt_some_length hm
        rw [ih f2 [] r (by omega) (by omega)]
      | none =>
        simp only [hm]
        cases s with
        | nil => rfl
        | cons ch cs =>
          simp only [List.length_cons] at h1 h2
          exact ih f2 (pending ++ [ch]) cs (by omega) (by omega)

lemma parseRun_nil (pending : List Char) : parseRun pending [] = flushNeutral pending := rfl

lemma parseRun_matched {s l c r : List Char} (h : matchAt s = some (l, c, r))
    (pending : List Char) :
    parseRun pending s = flushNeutral pending ++ (l, trimChars c) :: parseRun [] r := by
  have hr := matchAt_some_length h
  unfold parseRun
  conv_lhs => simp only [parseLoopF, h]
  rw [parseLoopF_fuel s.length (r.length + 1) [] r hr (Nat.lt_succ_self _)]

lemma parseRun_step {ch : Char} {cs : List Char} (h : matchAt (ch :: cs) = none)
    (pending : List Char) :
    parseRun pending (ch :: cs) = parseRun (pending ++ [ch]) cs := by
  unfold parseRun
  simp only [List.length_cons, parseLoopF, h]

lemma parseRun_raw (a : List Char) (ha : '<' ∉ a) :
    ∀ pending s, parseRun pending (a ++ s) = parseRun (pending ++ a) s := by
  induction a with
  | nil => intro pending s; simp
  | cons ch a2 ih =>
    intro pending s
    have hch : ch ≠ '<' := fun hc => ha (hc ▸ List.mem_cons_self ch a2)
    have ha2 : '<' ∉ a2 := fun hm => ha (List.mem_cons_of_mem ch hm)
    rw [List.cons_append, parseRun_step (matchAt_cons_ne hch (a2 ++ s)) pending, ih ha2]
    simp

lemma parseRun_pair (l b s pending : List Char) (hl : l ≠ [])
    (hw : ∀ c ∈ l, isWordChar c = true) (hb : '<' ∉ b) :
    parseRun pending ('<' :: (l ++ '>' :: (b ++ (closeTag l ++ s)))) =
      flushNeutral pending ++ (l, trimChars b) :: parseRun [] s :=
  parseRun_matched (matchAt_open l b s hl hw hb) pending

lemma removeWs_append (a b : List Char) : removeWs (a ++ b) = removeWs a ++ removeWs b := by
  simp [removeWs]

lemma removeWs_dropWhile (s : List Char) :
    removeWs (s.dropWhile isSpaceChar) = removeWs s := by
  induction s with
  | nil => rfl
  | cons c cs ih =>
    by_cases hc : isSpaceChar c = true
    · simp only [List.dropWhile_cons, hc, if_true, ih]
      simp [removeWs, List.filter_cons, hc]
    · simp [List.dropWhile_cons, hc]

lemma removeWs_reverse (s : List Char) : removeWs s.reverse = (removeWs s).reverse := by
  simp [removeWs, List.filter_reverse]

lemma removeWs_trim (s : List Char) : removeWs (trimChars s) = removeWs s := by
  unfold trimChars
  rw [removeWs_reverse, removeWs_dropWhile, removeWs_reverse, List.reverse_reverse,
      removeWs_dropWhile]

lemma joinedContents_append (a b : List (List Char × List Char)) :
    joinedContents (a ++ b) = joinedContents a ++ joinedContents b := by
  simp [joinedContents]

lemma joinedContents_cons (x : List Char × List Char) (b : List (List Char × List Char)) :
    joinedContents (x :: b) = x.2 ++ joinedContents b := by
  simp [joinedContents]

lemma removeWs_flush (pending : List Char) :
    removeWs (joinedContents (flushNeutral pending)) = removeWs pending := by
  unfold flushNeutral
  by_cases h : trimChars pending = []
  · have h2 : removeWs pending = [] := by
      rw [← removeWs_trim, h]; rfl
    rw [h2]
    simp [h, joinedContents, removeWs]
  · simp [h, joinedContents, removeWs_trim]

lemma trim_of_spaces {b : List Char} (hb : ∀ c ∈ b, isSpaceChar c = true) :
    trimChars b = [] := by
  unfold trimChars
  rw [List.dropWhile_eq_nil_iff.mpr fun c hc => hb c hc]
  rfl

lemma wfItems_cons {it : TagItem} {rest : List TagItem} (h : wfItems (it :: rest)) :
    wfItem it ∧ wfItems rest :=
  ⟨h it (List.mem_cons_self it rest), fun x hx => h x (List.mem_cons_of_mem it hx)⟩

lemma parseRun_render (items : List TagItem) (h : wfItems items) :
    ∀ pending, removeWs (joinedContents (parseRun pending (renderItems items))) =
      removeWs pending ++ removeWs (stripMarkup items) := by
  induction items with
  | nil =>
    intro pending
    simp only [renderItems, List.map_nil, List.flatten_nil, parseRun_nil, stripMarkup]
    rw [removeWs_flush]
    simp [removeWs]
  | cons it rest ih =>
    obtain ⟨hit, hrest⟩ := wfItems_cons h
    intro pending
    cases it with
    | raw s =>
      have hs : '<' ∉ s := hit
      have hrender : renderItems (TagItem.raw s :: rest) = s ++ renderItems rest := by
        simp [renderItems, renderItem]
      rw [hrender, parseRun_raw s hs pending (renderItems rest), ih hrest (pending ++ s)]
      simp [stripMarkup, removeWs_append, List.append_assoc]
    | pair l b =>
      obtain ⟨hl, hw, hb⟩ := hit
      have hrender : renderItems (TagItem.pair l b :: rest) =
          '<' :: (l ++ '>' :: (b ++ (closeTag l ++ renderItems rest))) := by
        simp [renderItems, renderItem, List.append_assoc]
      rw [hrender, parseRun_pair l b (renderItems rest) pending hl hw hb,
          joinedContents_append, joinedContents_cons, removeWs_append, removeWs_flush,
          removeWs_append, removeWs_trim, ih hrest []]
      simp [stripMarkup, removeWs_append, removeWs, List.append_assoc]

/-- C1 (counterexample): exact round-trip fails.  On the well-formed input
"a <b>c</b>" the concatenated segment contents are "ac" while the original
text with tag markup removed is "a c": stripping each segment loses the
whitespace at segment boundaries, so content round-trips only modulo
whitespace, not verbatim. -/
theorem parse_roundtrip_exact_counterexample :
    renderItems [TagItem.raw "a ".data, TagItem.pair "b".data "c".data] = "a <b>c</b>".data
    ∧ wfItems [TagItem.raw "a ".data, TagItem.pair "b".data "c".data]
    ∧ joinedContents (parse_tagged_text "a <b>c</b>".data)
        ≠ stripMarkup [TagItem.raw "a ".data, TagItem.pair "b".data "c".data] := by
  refine ⟨by decide, by decide, by decide⟩

/-- C1 (amended): for every well-formed tagged input, concatenating the parsed
segments' contents in document order reproduces the original text modulo tag
markup and whitespace: after removing all whitespace the concatenation equals
the tag-stripped original. -/
theorem parse_roundtrip_mod_whitespace (items : List TagItem) (h : wfItems items) :
    removeWs (joinedContents (parse_tagged_text (renderItems items))) =
      removeWs (stripMarkup items) := by
  have := parseRun_render items h []
  simpa [parse_tagged_text, removeWs] using this

/-- C1 (witness): the amended round-trip evaluated on a concrete well-formed
tagged input. -/
theorem parse_roundtrip_mod_whitespace_witness :
    removeWs (joinedContents (parse_tagged_text (renderItems itemsW))) =
      removeWs (stripMarkup itemsW) :=
  parse_roundtrip_mod_whitespace itemsW (by decide)

/-- C2: parse_tagged_text on the example input returns exactly the three
segments (silence, "2"), (neutral, "Hello there."), (scared, "Did you hear
that?"); the blank-only spans between tags are dropped, not emitted as empty
neutral segments. -/
theorem parse_example_segments :
    parse_tagged_text
        "<silence>2</silence>  <neutral>Hello there.</neutral>  <scared>Did you hear that?</scared>".data
      = [(silenceChars, "2".data), (neutralChars, "Hello there.".data),
         ("scared".data, "Did you hear that?".data)] := by
  decide

/-- C10: a well-formed tag pair with an empty or whitespace-only body is
emitted as a segment with empty content; the drop-if-blank rule applies only
to untagged spans, never to matched tag pairs. -/
theorem empty_tag_body_segment (l b : List Char) (hl : l ≠ [])
    (hw : ∀ c ∈ l, isWordChar c = true) (hb : ∀ c ∈ b, isSpaceChar c = true) :
    parse_tagged_text (renderItem (TagItem.pair l b)) = [(l, [])] := by
  have hb2 : '<' ∉ b := fun hm => by
    have := hb '<' hm
    simp [isSpaceChar] at this
  have hshape : renderItem (TagItem.pair l b) =
      '<' :: (l ++ '>' :: (b ++ (closeTag l ++ ([] : List Char)))) := by
    simp [renderItem]
  rw [parse_tagged_text, hshape, parseRun_pair l b [] [] hl hw hb2, parseRun_nil]
  rw [trim_of_spaces hb]
  rfl

/-- C10 (witness): the empty-body tag pair with label "scared" parses to a
single segment with empty content. -/
theorem empty_tag_body_segment_witness :
    parse_tagged_text (renderItem (TagItem.pair "scared".data [])) = [("scared".data, [])] :=
  empty_tag_body_segment "scared".data [] (by decide) (by decide) (by decide)

lemma pyInt_natCast (n : ℕ) : pyInt ((n : ℕ) : ℚ) = (n : ℤ) := by
  simp [pyInt, Rat.num_natCast, Rat.den_natCast]

lemma generate_silence_eq {d : ℚ} {rate : ℕ} {n : ℕ} (h : d * (rate : ℚ) = (n : ℚ)) :
    generate_silence d rate = some (List.replicate n 0) := by
  unfold generate_silence
  rw [h, pyInt_natCast]
  simp

lemma processSegs_append (env : F5Env) (a b : List (List Char × List Char)) :
    ∀ st, processSegs env (a ++ b) st =
      match processSegs env a st with
      | Except.error e => Except.error e
      | Except.ok st1 => processSegs env b st1 := by
  induction a with
  | nil => intro st; rfl
  | cons sg rest ih =>
    intro st
    by_cases hsil : sg.1 = silenceChars
    · simp only [List.cons_append, processSegs, if_pos hsil]
      cases hf : env.floatOfString sg.2 with
      | none => exact ih st
      | some d =>
        dsimp only
        cases hg : generate_silence d st.rate with
        | none => exact ih st
        | some buf => exact ih _
    · simp only [List.cons_append, processSegs, if_neg hsil]
      cases hi : env.infer (get_emotion_audio_path env sg.1) sg.2 with
      | error e => rfl
      | ok out => exact ih _

lemma processSegs_append_ok {env : F5Env} {a b : List (List Char × List Char)}
    {st stf : RunState} (h : processSegs env (a ++ b) st = Except.ok stf) :
    ∃ st1, processSegs env a st = Except.ok st1 ∧ processSegs env b st1 = Except.ok stf := by
  rw [processSegs_append env a b st] at h
  cases hp : processSegs env a st with
  | error e => rw [hp] at h; simp at h
  | ok st1 => rw [hp] at h; exact ⟨st1, rfl, h⟩

lemma processSegs_silence_rate (env : F5Env) :
    ∀ segs st stf, (∀ sg ∈ segs, sg.1 = silenceChars) →
      processSegs env segs st = Except.ok stf → stf.rate = st.rate := by
  intro segs
  induction segs with
  | nil =>
    intro st stf _ h
    cases h
    rfl
  | cons sg rest ih =>
    intro st stf hall h
    have hsil := hall sg (List.mem_cons_self sg rest)
    have hrest := fun x hx => hall x (List.mem_cons_of_mem sg hx)
    simp only [processSegs, if_pos hsil] at h
    cases hf : env.floatOfString sg.2 with
    | none =>
      simp only [hf] at h
      exact ih st stf hrest h
    | some d =>
      simp only [hf] at h
      cases hg : generate_silence d st.rate with
      | none =>
        simp only [hg] at h
        exact ih st stf hrest h
      | some buf =>
        simp only [hg] at h
        exact ih { buffers := st.buffers ++ [buf], rate := st.rate } stf hrest h

/-- C3: in the segment loop of generate_emotion_audio, a silence segment whose
content does not parse as a float is skipped (and a diagnostic is printed) and
processing continues with the remaining segments, while its event still shows
the segment entered processing; and when parsing yields no segments at all,
generate_emotion_audio fails with the explicit no-segments error rather than
producing output. -/
theorem silence_skip_and_empty_error (env : F5Env) (content : List Char)
    (rest : List (List Char × List Char)) (st : RunState) (text : List Char)
    (hfloat : env.floatOfString content = none) (hparse : parse_tagged_text text = []) :
    processSegs env ((silenceChars, content) :: rest) st = processSegs env rest st
    ∧ segEvents env ((silenceChars, content) :: rest)
        = TtsEv.seg (silenceChars, content) :: segEvents env rest
    ∧ generate_emotion_audio env text = ([], Except.error GenErr.noSegments) := by
  refine ⟨?_, ?_, ?_⟩
  · simp [processSegs, hfloat]
  · simp [segEvents]
  · simp [generate_emotion_audio, hparse]

/-- C3 (witness): the skip and the empty-input error evaluated on the concrete
environment, an unparseable silence content and the empty text. -/
theorem silence_skip_and_empty_error_witness :
    processSegs envW [(silenceChars, "abc".data)] initState = processSegs envW [] initState
    ∧ segEvents envW [(silenceChars, "abc".data)]
        = TtsEv.seg (silenceChars, "abc".data) :: segEvents envW []
    ∧ generate_emotion_audio envW [] = ([], Except.error GenErr.noSegments) :=
  silence_skip_and_empty_error envW "abc".data [] initState [] (by decide) rfl

/-- C4: a silence segment with valid numeric content d, where d times the
current sample rate is the whole number n, appends exactly n zero samples at
the sample rate in force when it is processed; that rate is the default 24000
while every earlier segment of the run was silence, and otherwise is the rate
reported by the most recent speech-synthesis call. -/
theorem silence_buffer_and_rate (env : F5Env) (pre : List (List Char × List Char))
    (c : List Char) (d : ℚ) (n : ℕ) (sti : RunState)
    (hfloat : env.floatOfString c = some d)
    (hpre : processSegs env pre initState = Except.ok sti)
    (hn : d * (sti.rate : ℚ) = (n : ℚ)) :
    processSegs env (pre ++ [(silenceChars, c)]) initState
      = Except.ok { buffers := sti.buffers ++ [List.replicate n 0], rate := sti.rate }
    ∧ ((∀ sg ∈ pre, sg.1 = silenceChars) → sti.rate = 24000)
    ∧ (∀ pre1 sp pre2, pre = pre1 ++ sp :: pre2 → sp.1 ≠ silenceChars →
        (∀ sg ∈ pre2, sg.1 = silenceChars) →
        ∃ out, env.infer (get_emotion_audio_path env sp.1) sp.2 = Except.ok out
          ∧ sti.rate = out.rate) := by
  refine ⟨?_, ?_, ?_⟩
  · rw [processSegs_append env pre [(silenceChars, c)] initState, hpre]
    dsimp only
    simp [processSegs, hfloat, generate_silence_eq hn]
  · intro hall
    have := processSegs_silence_rate env pre initState sti hall hpre
    simpa [initState] using this
  · intro pre1 sp pre2 hsplit hspe hall2
    rw [hsplit] at hpre
    obtain ⟨st1, h1, h2⟩ := processSegs_append_ok hpre
    simp only [processSegs, if_neg hspe] at h2
    cases hi : env.infer (get_emotion_audio_path env sp.1) sp.2 with
    | error e =>
      rw [hi] at h2
      simp at h2
    | ok out =>
      rw [hi] at h2
      dsimp only at h2
      exact ⟨out, rfl,
        processSegs_silence_rate env pre2 { buffers := st1.buffers ++ [out.wave], rate := out.rate }
          sti hall2 h2⟩

/-- C4 (witness): a silence segment of two seconds at the head of a run
appends 48000 zero samples at the default rate 24000. -/
theorem silence_buffer_and_rate_witness :
    processSegs envW ([] ++ [(silenceChars, ['2'])]) initState
      = Except.ok { buffers := initState.buffers ++ [List.replicate 48000 0],
                    rate := initState.rate }
    ∧ initState.rate = 24000 := by
  have h := silence_buffer_and_rate envW [] ['2'] 2 48000 initState (by decide) rfl
    (by simp [initState]; norm_num)
  exact ⟨h.1, h.2.1 (by simp)⟩

/-- C5: for every emotion label whose asset file does not exist in the
emotions asset directory, get_emotion_audio_path returns exactly the neutral
fallback asset path; and for every input it returns one of the two asset
paths, never failing. -/
theorem emotion_path_fallback (env : F5Env) (label : List Char) :
    (env.fsExists (emotionAssetPath env.scriptDir label) = false →
      get_emotion_audio_path env label = emotionAssetPath env.scriptDir neutralChars)
    ∧ (get_emotion_audio_path env label = emotionAssetPath env.scriptDir label
       ∨ get_emotion_audio_path env label = emotionAssetPath env.scriptDir neutralChars) := by
  constructor
  · intro h
    simp [get_emotion_audio_path, h]
  · by_cases h : env.fsExists (emotionAssetPath env.scriptDir label) = true
    · left
      simp [get_emotion_audio_path, h]
    · right
      simp only [Bool.not_eq_true] at h
      simp [get_emotion_audio_path, h]

/-- C5 (witness): with no asset files present, the label "angry" resolves to
the neutral fallback path. -/
theorem emotion_path_fallback_witness :
    get_emotion_audio_path envW "angry".data = emotionAssetPath envW.scriptDir neutralChars :=
  (emotion_path_fallback envW "angry".data).1 rfl

lemma gen_trace (env : F5Env) (text : List Char) :
    (generate_emotion_audio env text).1 =
      if parse_tagged_text text = [] then []
      else TtsEv.load :: (segEvents env (parse_tagged_text text) ++ [TtsEv.unload]) := by
  unfold generate_emotion_audio
  by_cases h : parse_tagged_text text = []
  · simp [h]
  · simp only [h, if_false]
    cases hr : processSegs env (parse_tagged_text text) initState with
    | error e => simp [hr]
    | ok st => by_cases hb : st.buffers = [] <;> simp [hr, hb]

lemma segEvents_all_seg (env : F5Env) :
    ∀ segs, ∀ e ∈ segEvents env segs, ∃ sg, e = TtsEv.seg sg := by
  intro segs
  induction segs with
  | nil => intro e he; simp [segEvents] at he
  | cons sg rest ih =>
    intro e he
    by_cases hsil : sg.1 = silenceChars
    · simp only [segEvents, if_pos hsil, List.mem_cons] at he
      rcases he with rfl | he
      · exact ⟨sg, rfl⟩
      · exact ih e he
    · simp only [segEvents, if_neg hsil] at he
      cases hi : env.infer (get_emotion_audio_path env sg.1) sg.2 with
      | error e2 =>
        rw [hi] at he
        simp at he
        exact ⟨sg, he⟩
      | ok out =>
        rw [hi] at he
        simp only [List.mem_cons] at he
        rcases he with rfl | he
        · exact ⟨sg, rfl⟩
        · exact ih e he

/-- C9: over the whole run of generate_emotion_audio the model handle ends
unloaded on every exit path (success, propagated inference exception, or the
no-audio error), and whenever parsing produced segments the event trace starts
with the model load, ends with the unload of the finally block, and contains
only segment-processing events in between. -/
theorem model_lifecycle (env : F5Env) (text : List Char) :
    modelLoadedAfter (generate_emotion_audio env text).1 = false
    ∧ (parse_tagged_text text ≠ [] →
        ∃ evs, (generate_emotion_audio env text).1 = TtsEv.load :: (evs ++ [TtsEv.unload])
          ∧ ∀ e ∈ evs, ∃ sg, e = TtsEv.seg sg) := by
  by_cases h : parse_tagged_text text = []
  · constructor
    · rw [gen_trace env text, if_pos h]
      rfl
    · intro hne
      exact absurd h hne
  · constructor
    · rw [gen_trace env text, if_neg h]
      unfold modelLoadedAfter
      rw [List.foldl_cons, List.foldl_append]
      rfl
    · intro _
      refine ⟨segEvents env (parse_tagged_text text), ?_, segEvents_all_seg env _⟩
      rw [gen_trace env text, if_neg h]

/-- C9 (witness): the lifecycle facts evaluated on the concrete environment
and a one-segment tagged text: the trace starts with the load event and the
model ends unloaded. -/
theorem model_lifecycle_witness :
    modelLoadedAfter (generate_emotion_audio envW textW).1 = false
    ∧ (generate_emotion_audio envW textW).1.head? = some TtsEv.load := by
  obtain ⟨h1, h2⟩ := model_lifecycle envW textW
  obtain ⟨evs, heq, -⟩ := h2 (by decide)
  exact ⟨h1, by rw [heq]; rfl⟩

lemma flatten_replicate_length (k : ℕ) (l : List ℚ) :
    ((List.replicate k l).flatten).length = k * l.length := by
  induction k with
  | zero => simp
  | succ k ih => simp [List.replicate_succ, ih, Nat.succ_mul, Nat.add_comm]

lemma pydubOverlay_length (a b : List ℚ) : (pydubOverlay a b).length = a.length := by
  simp only [pydubOverlay, List.length_append, List.length_zipWith, List.length_drop]
  omega

lemma pydubOverlay_eq_zipWith {a b : List ℚ} (h : b.length = a.length) :
    pydubOverlay a b = List.zipWith (· + ·) a b := by
  unfold pydubOverlay
  rw [h, List.drop_length, List.append_nil]

/-- C6: mixing output duration always equals the speech input duration; a
shorter background is tiled enough times to cover the speech then truncated to
exact length, a longer or equal one is truncated only, and in both cases the
background is attenuated by the fixed minus-twenty-decibel gain before the
additive overlay at position zero. -/
theorem merge_duration_eq (p m : List ℚ) (hm : m ≠ []) :
    ∃ out, merge_audio_with_melody p m = some out
      ∧ out.length = p.length
      ∧ (p.length ≤ m.length → out = List.zipWith (· + ·) p ((m.take p.length).map gainNeg20))
      ∧ (m.length < p.length →
          out = List.zipWith (· + ·) p
            ((((List.replicate (p.length / m.length + 1) m).flatten).take p.length).map
              gainNeg20)) := by
  have hmd : 0 < m.length := List.length_pos.mpr hm
  by_cases hlt : m.length < p.length
  · have hcov : p.length ≤ (p.length / m.length + 1) * m.length := by
      have h1 := Nat.div_add_mod p.length m.length
      have h2 := Nat.mod_lt p.length hmd
      calc p.length = m.length * (p.length / m.length) + p.length % m.length := h1.symm
        _ ≤ m.length * (p.length / m.length) + m.length := by omega
        _ = (p.length / m.length + 1) * m.length := by ring
    have hext : ((((List.replicate (p.length / m.length + 1) m).flatten).take p.length).map
        gainNeg20).length = p.length := by
      rw [List.length_map, List.length_take, flatten_replicate_length]
      omega
    refine ⟨pydubOverlay p
        ((((List.replicate (p.length / m.length + 1) m).flatten).take p.length).map gainNeg20),
      ?_, ?_, ?_, ?_⟩
    · simp only [merge_audio_with_melody]
      rw [if_pos hlt, if_neg hmd.ne']
    · rw [pydubOverlay_length]
    · intro hc
      omega
    · intro _
      exact pydubOverlay_eq_zipWith hext
  · have hple : p.length ≤ m.length := by omega
    have hext : ((m.take p.length).map gainNeg20).length = p.length := by
      rw [List.length_map, List.length_take]
      omega
    refine ⟨pydubOverlay p ((m.take p.length).map gainNeg20), ?_, ?_, ?_, ?_⟩
    · simp only [merge_audio_with_melody]
      rw [if_neg hlt]
    · rw [pydubOverlay_length]
    · intro _
      exact pydubOverlay_eq_zipWith hext
    · intro hc
      omega

/-- C6 (witness): mixing the concrete three-millisecond podcast with the
one-millisecond melody tiles the melody four times, truncates to three
milliseconds, attenuates and overlays, and the output duration equals the
podcast duration. -/
theorem merge_duration_eq_witness :
    merge_audio_with_melody pW mW
      = some (List.zipWith (· + ·) pW
          ((((List.replicate (pW.length / mW.length + 1) mW).flatten).take pW.length).map
            gainNeg20))
    ∧ (merge_audio_with_melody pW mW).map List.length = some pW.length := by
  obtain ⟨out, h1, hlen, -, h4⟩ := merge_duration_eq pW mW (by decide)
  have he := h4 (by decide)
  rw [he] at h1 hlen
  refine ⟨h1, ?_⟩
  rw [h1]
  rfl

/-- C7: the extraction plan clamps the requested duration to the probed source
duration and draws the start uniformly in the interval from zero to source
duration minus segment duration; when the request is at least the source
length the output spans the whole source from offset zero. -/
theorem extract_clamp_uniform (videoDur target : ℚ) (uniform : ℚ → ℚ → ℚ)
    (hu : ∀ lo hi, lo ≤ hi → lo ≤ uniform lo hi ∧ uniform lo hi ≤ hi) :
    (extract_random_segment videoDur target uniform).2 = min target videoDur
    ∧ 0 ≤ (extract_random_segment videoDur target uniform).1
    ∧ (extract_random_segment videoDur target uniform).1 ≤ videoDur - min target videoDur
    ∧ (videoDur ≤ target →
        (extract_random_segment videoDur target uniform).2 = videoDur
        ∧ (extract_random_segment videoDur target uniform).1 = 0) := by
  have hd : min target videoDur ≤ videoDur := min_le_right target videoDur
  have hmax : max 0 (videoDur - min target videoDur) = videoDur - min target videoDur :=
    max_eq_right (by linarith)
  have hb := hu 0 (videoDur - min target videoDur) (by linarith)
  unfold extract_random_segment
  dsimp only
  rw [hmax]
  refine ⟨rfl, hb.1, hb.2, ?_⟩
  intro hta
  have hmin : min target videoDur = videoDur := min_eq_right hta
  constructor
  · exact hmin
  · have hz := hu 0 0 le_rfl
    rw [hmin]
    simp only [sub_self]
    exact le_antisymm hz.2 hz.1

/-- C7 (witness): requesting a fifteen-second segment from a ten-second source
yields a ten-second output starting at offset zero. -/
theorem extract_clamp_uniform_witness :
    (extract_random_segment 10 15 uniformW).2 = 10
    ∧ (extract_random_segment 10 15 uniformW).1 = 0 :=
  (extract_clamp_uniform 10 15 uniformW (fun lo hi h => ⟨le_refl lo, h⟩)).2.2.2 (by norm_num)

/-- C8: the crop-and-scale computation of convert_to_shorts_format is a pure
function of the source and target dimensions, and on a source already at the
target nine-by-sixteen aspect ratio it computes a full-frame crop (no further
crop) with a centred zero offset and scales to the fixed target dimensions;
since those target dimensions are themselves at the target aspect ratio, the
computation is idempotent under repeated application. -/
theorem shorts_idempotent (w h : ℕ) (hh : 0 < h) (hr : 16 * w = 9 * h) :
    convert_to_shorts_format w h
      = some (((w : ℤ), (h : ℤ), 0, 0), (SHORTS_WIDTH, SHORTS_HEIGHT))
    ∧ 16 * SHORTS_WIDTH = 9 * SHORTS_HEIGHT := by
  constructor
  · have hh0 : (h : ℚ) ≠ 0 := Nat.cast_ne_zero.mpr hh.ne'
    have hrq : (16 : ℚ) * w = 9 * h := by exact_mod_cast hr
    have hta : (SHORTS_WIDTH : ℚ) / (SHORTS_HEIGHT : ℚ) = 9 / 16 := by
      norm_num [SHORTS_WIDTH, SHORTS_HEIGHT]
    have hca : (w : ℚ) / (h : ℚ) = 9 / 16 := by
      rw [div_eq_div_iff hh0 (by norm_num)]
      linarith
    have hch : (w : ℚ) / ((SHORTS_WIDTH : ℚ) / (SHORTS_HEIGHT : ℚ)) = ((h : ℕ) : ℚ) := by
      rw [hta]
      rw [div_eq_iff (by norm_num : (9 : ℚ) / 16 ≠ 0)]
      linarith
    unfold convert_to_shorts_format
    rw [if_neg hh.ne']
    dsimp only
    rw [if_neg (by rw [hta, hca]; exact lt_irrefl _), hch, pyInt_natCast]
    simp
  · norm_num [SHORTS_WIDTH, SHORTS_HEIGHT]

/-- C8 (witness): applying the computation to the target dimensions themselves
(the dimensions every converted output is scaled to) computes a full-frame
crop and the same target dimensions, exhibiting idempotence. -/
theorem shorts_idempotent_witness :
    convert_to_shorts_format SHORTS_WIDTH SHORTS_HEIGHT
      = some (((SHORTS_WIDTH : ℤ), (SHORTS_HEIGHT : ℤ), 0, 0), (SHORTS_WIDTH, SHORTS_HEIGHT)) :=
  (shorts_idempotent SHORTS_WIDTH SHORTS_HEIGHT (by norm_num [SHORTS_HEIGHT])
    (by norm_num [SHORTS_WIDTH, SHORTS_HEIGHT])).1
